import Mathlib

/-!
A verification development for the LOOS binary I/O and stream-composition
core: the XDR word codec (src/xdr.hpp), the DCD trajectory writer
(src/dcdwriter.hpp), and the multi-trajectory composer (src/src/MultiTraj.cpp).
Machine integers are modelled as Nat; byte streams as lists of byte values
with an explicit failure flag mirroring std::iostream state bits.
-/

namespace Loos

/-! ## Byte streams

An input stream holds the bytes still unread plus a failbit; a read past the
end delivers what is available (missing bytes modelled as zero, standing for
the unspecified buffer contents of a short std::istream read) and raises the
failbit.  An output stream accumulates written bytes; an optional capacity
models a device that starts rejecting writes, raising the failbit.  A stream
whose failbit is set ignores further transfer requests, as iostreams do. -/

structure InStream where
  data : List Nat
  failed : Bool
deriving Repr, DecidableEq

structure OutStream where
  written : List Nat
  capacity : Option Nat
  failed : Bool
deriving Repr, DecidableEq

def inRead (s : InStream) (n : Nat) : List Nat × InStream :=
  if s.failed then (List.replicate n 0, s)
  else if n ≤ s.data.length then
    (s.data.take n, ⟨s.data.drop n, false⟩)
  else
    (s.data ++ List.replicate (n - s.data.length) 0, ⟨[], true⟩)

def outWrite (s : OutStream) (bs : List Nat) : OutStream :=
  if s.failed then s
  else
    match s.capacity with
    | none => ⟨s.written ++ bs, none, false⟩
    | some c =>
      if s.written.length + bs.length ≤ c then ⟨s.written ++ bs, some c, false⟩
      else ⟨s.written, some c, true⟩

/-! ## Host representation of scalars

A scalar of byte width `size` is identified with its value; `hostBytes`
gives its in-memory object representation on a host of the given byte
order (`hostLE = true` for a little-endian host), and `valOfBytes` reads a
representation back.  The XDR constructor probes the host order at runtime
and sets its swab flag exactly when the host is little-endian, so the same
boolean drives both the representation and the swab condition. -/

def wordSize : Nat := 4

def leBytes : Nat → Nat → List Nat
  | 0, _ => []
  | k + 1, v => v % 256 :: leBytes k (v / 256)

def leVal : List Nat → Nat
  | [] => 0
  | b :: rest => b + 256 * leVal rest

def hostBytes (hostLE : Bool) (size v : Nat) : List Nat :=
  if hostLE then leBytes size v else (leBytes size v).reverse

def valOfBytes (hostLE : Bool) (bs : List Nat) : Nat :=
  if hostLE then leVal bs else leVal bs.reverse

/-! ## The XDR codec (src/xdr.hpp)

Each operation is a function of the swab flag (equivalently, the host byte
order) and the stream state.  Scalar reads and writes transfer exactly one
word.  The uninitialized trailing bytes of the word-sized union in
`XDR::write` are modelled as zero. -/

namespace XDR

/-- XDR scalar read, from src/xdr.hpp lines 34 to 49: rejects a type wider
than one word with a logic error, otherwise reads one word from the stream,
reinterprets its first `size` bytes as the requested type, byte-swaps that
value when the host needs it, and returns 1 or 0 for the stream health
after the read, together with the value delivered. -/
def read (hostLE : Bool) (size : Nat) (s : InStream) :
    Except String (Nat × Nat × InStream) :=
  if wordSize < size then
    .error "Attempting to read a POD that is too large"
  else
    let r := inRead s wordSize
    let tb := r.1.take size
    let tb2 := if 1 < size ∧ hostLE then tb.reverse else tb
    .ok (if r.2.failed then 0 else 1, valOfBytes hostLE tb2, r.2)

/-- XDR scalar write, from src/xdr.hpp lines 83 to 99: rejects a type wider
than one word with a logic error, otherwise copies the value into the low
bytes of a word (remaining bytes modelled as zero), byte-swaps the whole
word when the host needs it, writes the word, and returns 1 or 0 for the
stream health after the write. -/
def write (hostLE : Bool) (size v : Nat) (s : OutStream) :
    Except String (Nat × OutStream) :=
  if wordSize < size then
    .error "Attempting to write a POD that is too large"
  else
    let ub := hostBytes hostLE size v ++ List.replicate (wordSize - size) 0
    let ub2 := if 1 < size ∧ hostLE then ub.reverse else ub
    let s2 := outWrite s ub2
    .ok (if s2.failed then 0 else 1, s2)

/-- XDR block read, from src/xdr.hpp lines 60 to 78: returns 1 immediately
for a zero-length request; otherwise reads `n` payload bytes, returning 0 on
failure, then reads and discards the padding that rounds the transfer up to
a word boundary, and returns `n` without checking the padding read. -/
def readBlock (s : InStream) (n : Nat) : Nat × List Nat × InStream :=
  if n = 0 then (1, [], s)
  else
    let rndup := if 0 < n % wordSize then wordSize - n % wordSize else 0
    let r := inRead s n
    if r.2.failed then (0, r.1, r.2)
    else if 0 < rndup then
      let r2 := inRead r.2 rndup
      (n, r.1, r2.2)
    else (n, r.1, r.2)

/-- XDR block write, from src/xdr.hpp lines 109 to 127: writes the payload
bytes, then, if the stream is still healthy, zero padding up to the next
word boundary; returns 0 if the stream has failed and the payload length
otherwise. -/
def writeBlock (s : OutStream) (p : List Nat) : Nat × OutStream :=
  let n := p.length
  let rndup := if 0 < n % wordSize then wordSize - n % wordSize else 0
  let s2 := outWrite s p
  let s3 := if s2.failed then s2 else outWrite s2 (List.replicate rndup 0)
  (if s3.failed then 0 else n, s3)

end XDR

/-! Encoding helpers: run a write on a fresh unbounded stream and collect
the emitted bytes; run a read on exactly those bytes. -/

def freshOut : OutStream := ⟨[], none, false⟩

def encodeScalar (hostLE : Bool) (size v : Nat) : List Nat :=
  match XDR.write hostLE size v freshOut with
  | .ok (_, s) => s.written
  | .error _ => []

def decodeScalar (hostLE : Bool) (size : Nat) (bs : List Nat) : Option Nat :=
  match XDR.read hostLE size ⟨bs, false⟩ with
  | .ok (_, v, _) => some v
  | .error _ => none

def encodeBlock (p : List Nat) : List Nat :=
  (XDR.writeBlock freshOut p).2.written

/-- Discriminate the two constructors of Except. -/
def exceptOk {ε α : Type} : Except ε α → Bool
  | .ok _ => true
  | .error _ => false

/-! ## MultiTrajectory (src/src/MultiTraj.cpp)

A composed stream is modelled by the native frame count of each source
(fixed at construction), the skip and stride parameters, and the cursor
`(curtraj, curframe)`.  Each underlying source caches the last frame it
loaded; `caches` holds one such cache per source (`none` when the source
has not loaded a frame since its last rewind).  A coordinate buffer is
modelled as `Option (Nat × Option Nat)`: `some (t, c)` means the buffer
holds the coordinates copied out of source `t` while that source's cache
state was `c`. -/

structure MultiTrajectory where
  counts : List Nat
  skip : Nat
  stride : Nat
  curtraj : Nat
  curframe : Nat
  caches : List (Option Nat)
deriving Repr, DecidableEq

/-- Modelled from the spec: per-source usable virtual frame count.  The
member function MultiTrajectory::nframes(i) lives in MultiTraj.hpp, which
is not part of the sources here; the spec gives the formula
`floor((n - skip - 1) / stride) + 1` when `n > skip`, else 0. -/
def usableCount (skip stride n : Nat) : Nat :=
  if skip < n then (n - skip - 1) / stride + 1 else 0

/-- Total virtual frame count; MultiTrajectory::initWithList (src lines 91
to 97) accumulates the per-source usable counts. -/
def totalFrames (skip stride : Nat) (counts : List Nat) : Nat :=
  (counts.map (usableCount skip stride)).sum

/-- Cumulative virtual-frame base of source `t`: the usable counts of all
prior sources. -/
def cumUsable (skip stride : Nat) (counts : List Nat) (t : Nat) : Nat :=
  totalFrames skip stride (counts.take t)

/-- Helper for findNextUsable: scan the remaining counts, returning the
index of the first one exceeding skip, or the index one past the end. -/
def findNextUsableFrom (skip : Nat) : List Nat → Nat → Nat
  | [], cur => cur
  | n :: rest, cur => if skip < n then cur else findNextUsableFrom skip rest (cur + 1)

/-- MultiTrajectory::findNextUsableTraj (src lines 29 to 33): advance the
current-source index past every source whose native frame count does not
exceed skip. -/
def findNextUsable (counts : List Nat) (skip cur : Nat) : Nat :=
  findNextUsableFrom skip (counts.drop cur) cur

/-- Modelled from the spec: the derived end-of-stream test
`atEnd = source_index >= numSources` (MultiTrajectory::eof is declared in
MultiTraj.hpp, not among the sources here). -/
def eofState (st : MultiTrajectory) : Bool :=
  st.counts.length ≤ st.curtraj

/-- Modelled from the spec: the TrajectorySource capability
`loadFrame(nativeOffset) -> success/failure`.  Loading succeeds exactly
when the native offset exists in the source; on success the source caches
that frame. -/
def trajReadFrame (st : MultiTrajectory) (t f : Nat) : Bool × MultiTrajectory :=
  if f < st.counts.getD t 0 then
    (true, { st with caches := st.caches.set t (some f) })
  else (false, st)

/-- The state reached inside MultiTrajectory::rewindImpl just before the
eager read: every source rewound, cursor on the first usable source at
native offset skip. -/
def rewindState (st : MultiTrajectory) : MultiTrajectory :=
  { st with caches := st.caches.map (fun _ => none),
            curtraj := findNextUsable st.counts st.skip 0,
            curframe := st.skip }

/-- MultiTrajectory::rewindImpl (src lines 36 to 45): rewind every source,
reset the cursor to source 0 at native offset skip, skip to the first
usable source, and, when not at end, eagerly load the frame at the
cursor. -/
def rewindImpl (st : MultiTrajectory) : MultiTrajectory :=
  if eofState (rewindState st) then rewindState st
  else (trajReadFrame (rewindState st) (rewindState st).curtraj
    (rewindState st).curframe).2

/-- MultiTrajectory::seekNextFrameImpl (src lines 60 to 69): no-op at end;
otherwise advance the native offset by stride and, when it runs off the
current source, move to the next usable source at offset skip. -/
def seekNextFrameImpl (st : MultiTrajectory) : MultiTrajectory :=
  if eofState st then st
  else if st.counts.getD st.curtraj 0 ≤ st.curframe + st.stride then
    { st with curframe := st.skip,
              curtraj := findNextUsable st.counts st.skip (st.curtraj + 1) }
  else { st with curframe := st.curframe + st.stride }

/-- Helper for MultiTrajectory::frameIndexToLocation: walk the per-source
usable counts, subtracting them from the virtual index until the owning
source is reached; the C++ loop accumulates the subtracted total in `j`
and breaks when `j + n > i`. -/
def frameLocAux (skip stride : Nat) : List Nat → Nat → Nat × Nat
  | [], i => (0, skip + i * stride)
  | n :: rest, i =>
    if i < usableCount skip stride n then (0, skip + i * stride)
    else
      let r := frameLocAux skip stride rest (i - usableCount skip stride n)
      (r.1 + 1, r.2)

/-- MultiTrajectory::frameIndexToLocation (src lines 48 to 57). -/
def frameIndexToLocation (st : MultiTrajectory) (i : Nat) : Nat × Nat :=
  frameLocAux st.skip st.stride st.counts i

/-- MultiTrajectory::seekFrameImpl (src lines 71 to 77): out-of-range seeks
raise a FileReadError; otherwise the cursor is recomputed from the virtual
index. -/
def seekFrameImpl (st : MultiTrajectory) (i : Nat) : Except String MultiTrajectory :=
  if totalFrames st.skip st.stride st.counts ≤ i then
    .error "Cannot seek past end of MultiTraj"
  else
    .ok { st with curtraj := (frameIndexToLocation st i).1,
                  curframe := (frameIndexToLocation st i).2 }

/-- MultiTrajectory::parseFrame (src lines 79 to 83): reports false at end
without side effects, otherwise asks the current source to load the frame
at the current native offset. -/
def parseFrame (st : MultiTrajectory) : Bool × MultiTrajectory :=
  if eofState st then (false, st)
  else trajReadFrame st st.curtraj st.curframe

/-- MultiTrajectory::updateGroupCoordsImpl (src lines 85 to 88): a no-op at
end; otherwise the current source copies its cached coordinates into the
caller's buffer. -/
def updateGroupCoordsImpl (st : MultiTrajectory) (g : Option (Nat × Option Nat)) :
    Option (Nat × Option Nat) :=
  if eofState st then g
  else some (st.curtraj, st.caches.getD st.curtraj none)

/-- The cursor of a composed stream. -/
def cursorOf (st : MultiTrajectory) : Nat × Nat :=
  (st.curtraj, st.curframe)

/-! ## DCD trajectory writer (src/dcdwriter.hpp)

The writeFrame member is declared in src/dcdwriter.hpp lines 138 to 147 but
its body (dcdwriter.cpp) is not among the sources, so the writer is
modelled from the spec.  The output file is a list of words: a header
record carrying the atom count, the declared step count (at word index 1),
the box flag and the title words, followed by one record per frame.  A
frame is a list of coordinate triples plus an optional periodic box. -/

structure FrameData where
  coords : List (Nat × Nat × Nat)
  box : Option (Nat × Nat × Nat)
deriving Repr, DecidableEq

structure DCDWriter where
  natoms : Nat
  nsteps : Nat
  hasbox : Bool
  titles : List Nat
  current : Nat
  headerWritten : Bool
  file : List Nat
  writePos : Nat
deriving Repr, DecidableEq

/-- Word index of the step-count field inside the header record. -/
def headerStepIdx : Nat := 1

/-- Modelled from the spec: the header record emitted by
DCDWriter::writeHeader — atom count, declared step count, box flag and the
title words, as fixed-position fields. -/
def encodeHeader (natoms nsteps : Nat) (hasbox : Bool) (titles : List Nat) : List Nat :=
  natoms :: nsteps :: (if hasbox then 1 else 0) :: titles

/-- Modelled from the spec: one frame record — the optional box descriptor
followed by the per-axis coordinate blocks. -/
def encodeFrame (hasbox : Bool) (fr : FrameData) : List Nat :=
  (if hasbox then
    match fr.box with
    | some (a, b, c) => [a, b, c]
    | none => [0, 0, 0]
  else []) ++
    fr.coords.map (fun c => c.1) ++ fr.coords.map (fun c => c.2.1) ++
    fr.coords.map (fun c => c.2.2)

/-- Modelled from the spec: DCDWriter::writeHeader emits the header record
at the start of the file and leaves the write position after it. -/
def writeHeader (w : DCDWriter) : DCDWriter :=
  let hdr := encodeHeader w.natoms w.nsteps w.hasbox w.titles
  { w with file := hdr, writePos := hdr.length, headerWritten := true }

/-- Header establishment step of writeFrame: in explicit mode the header is
already on disk; in implicit mode one is inferred from the first frame and
emitted. -/
def ensureHeader (w : DCDWriter) (fr : FrameData) : DCDWriter :=
  if w.headerWritten then w
  else writeHeader { w with natoms := fr.coords.length, hasbox := fr.box.isSome }

/-- Appending one frame record: bytes go to the end of the file, the write
position follows, and the frame counter is incremented. -/
def appendFrame (w : DCDWriter) (fr : FrameData) : DCDWriter :=
  { w with file := w.file ++ encodeFrame w.hasbox fr,
           writePos := w.file.length + (encodeFrame w.hasbox fr).length,
           current := w.current + 1 }

/-- The in-place header patch: the step-count field of the emitted header
is overwritten with the actual frame count through a scoped seek-and-write
that leaves the write position untouched. -/
def patchSteps (w : DCDWriter) : DCDWriter :=
  { w with nsteps := w.current, file := w.file.set headerStepIdx w.current }

/-- Modelled from the spec: DCDWriter::writeFrame (dcdwriter.cpp, not among
the sources).  If no header has been written yet, one is inferred from the
first frame.  A frame whose atom count or box presence disagrees with the
header is a fatal usage error.  Otherwise the frame record is appended, the
frame counter incremented, and, when the counter exceeds the declared step
count, the step-count field of the already-emitted header is patched in
place, restoring the write position afterward. -/
def writeFrame (w : DCDWriter) (fr : FrameData) : Except String DCDWriter :=
  if fr.coords.length ≠ (ensureHeader w fr).natoms then
    .error "Frame does not match dcd header"
  else if fr.box.isSome ≠ (ensureHeader w fr).hasbox then
    .error "Frame does not match dcd header"
  else if (appendFrame (ensureHeader w fr) fr).nsteps
      < (appendFrame (ensureHeader w fr) fr).current then
    .ok (patchSteps (appendFrame (ensureHeader w fr) fr))
  else .ok (appendFrame (ensureHeader w fr) fr)

/-- A writer with its header on disk and a consistent position: the write
position sits at the end of the file, the file is at least a header long,
and the step-count field on disk agrees with the writer state. -/
def WriterWf (w : DCDWriter) : Prop :=
  w.headerWritten = true ∧ w.writePos = w.file.length ∧
    (encodeHeader w.natoms w.nsteps w.hasbox w.titles).length ≤ w.file.length ∧
    w.file.getD headerStepIdx 0 = w.nsteps

/-- A freshly constructed writer in implicit mode: nothing emitted yet. -/
def WriterFresh (w : DCDWriter) : Prop :=
  w.headerWritten = false ∧ w.file = [] ∧ w.writePos = 0 ∧
    w.current = 0 ∧ w.nsteps = 0

/-- The three-source example from the spec: native counts 10, 5 and 20,
skip 2, stride 3, cursor on source 0 at offset 2. -/
def mtEx : MultiTrajectory := ⟨[10, 5, 20], 2, 3, 0, 2, [none, none, none]⟩

/-- An example with skip-exhausted sources: native counts 1, 10, 2 and 5
with skip 2 and stride 1; sources 0 and 2 contribute no usable frames. -/
def mtW : MultiTrajectory := ⟨[1, 10, 2, 5], 2, 1, 0, 2, [none, none, none, none]⟩

/-- A one-source stream whose cursor has run past its only source: the
end-of-stream state. -/
def mtEnd : MultiTrajectory := ⟨[3], 0, 1, 1, 0, [some 2]⟩

/-- An example writer in explicit mode that declared zero steps, so the
first written frame already overruns the declaration. -/
def wEx : DCDWriter := writeHeader ⟨1, 0, false, [7], 0, false, [], 0⟩

/-- A one-atom frame without box data. -/
def frEx : FrameData := ⟨[(5, 6, 8)], none⟩

/-! ## Codec lemmas -/

theorem leBytes_length (k v : Nat) : (leBytes k v).length = k := by
  induction k generalizing v with
  | zero => rfl
  | succ k ih => simp [leBytes, ih]

theorem leVal_leBytes (k v : Nat) (h : v < 256 ^ k) : leVal (leBytes k v) = v := by
  induction k generalizing v with
  | zero =>
    simp only [pow_zero, Nat.lt_one_iff] at h
    simp [h, leBytes, leVal]
  | succ k ih =>
    have hdiv : v / 256 < 256 ^ k := by
      rw [Nat.div_lt_iff_lt_mul (by norm_num)]
      calc v < 256 ^ (k + 1) := h
        _ = 256 ^ k * 256 := by rw [pow_succ]
    simp only [leBytes, leVal, ih (v / 256) hdiv]
    omega

theorem hostBytes_length (hostLE : Bool) (size v : Nat) :
    (hostBytes hostLE size v).length = size := by
  cases hostLE <;> simp [hostBytes, leBytes_length]

theorem valOfBytes_hostBytes (hostLE : Bool) (size v : Nat) (h : v < 256 ^ size) :
    valOfBytes hostLE (hostBytes hostLE size v) = v := by
  cases hostLE <;> simp [hostBytes, valOfBytes, leVal_leBytes size v h]

theorem encodeScalar_eq (hostLE : Bool) (size v : Nat) (hsz : size ≤ wordSize) :
    encodeScalar hostLE size v =
      (if 1 < size ∧ hostLE then
        (hostBytes hostLE size v ++ List.replicate (wordSize - size) 0).reverse
      else hostBytes hostLE size v ++ List.replicate (wordSize - size) 0) := by
  unfold encodeScalar XDR.write
  rw [if_neg (by omega)]
  simp [outWrite, freshOut]

theorem encodeScalar_length (hostLE : Bool) (size v : Nat) (hsz : size ≤ wordSize) :
    (encodeScalar hostLE size v).length = wordSize := by
  rw [encodeScalar_eq hostLE size v hsz]
  split <;> simp [hostBytes_length] <;> omega

theorem decodeScalar_eq (hostLE : Bool) (size : Nat) (bs : List Nat)
    (hsz : size ≤ wordSize) (hlen : bs.length = wordSize) :
    decodeScalar hostLE size bs =
      some (valOfBytes hostLE
        (if 1 < size ∧ hostLE then (bs.take size).reverse else bs.take size)) := by
  have htake : List.take wordSize bs = bs := List.take_of_length_le (le_of_eq hlen)
  unfold decodeScalar XDR.read
  rw [if_neg (by omega)]
  simp only [inRead, Bool.false_eq_true, if_false, hlen, le_refl, if_true, htake]

theorem decode_encode_scalar (hostLE : Bool) (size v : Nat)
    (hsz : size ≤ wordSize) (hv : v < 256 ^ size)
    (hok : hostLE = false ∨ size = 1 ∨ size = wordSize) :
    decodeScalar hostLE size (encodeScalar hostLE size v) = some v := by
  rw [decodeScalar_eq hostLE size _ hsz (encodeScalar_length hostLE size v hsz),
    encodeScalar_eq hostLE size v hsz]
  cases hostLE with
  | false =>
    rw [if_neg (by simp), if_neg (by simp)]
    rw [List.take_left' (hostBytes_length false size v)]
    rw [valOfBytes_hostBytes false size v hv]
  | true =>
    rcases hok with h | h | h
    · exact absurd h (by simp)
    · subst h
      rw [if_neg (by omega), if_neg (by omega)]
      rw [List.take_left' (hostBytes_length true 1 v)]
      rw [valOfBytes_hostBytes true 1 v hv]
    · subst h
      have h1 : (1:Nat) < wordSize ∧ true = true := by
        refine ⟨by norm_num [wordSize], rfl⟩
      rw [if_pos h1, if_pos h1]
      have hnil : List.replicate (wordSize - wordSize) (0:Nat) = [] := by
        simp
      rw [hnil, List.append_nil]
      have hrl : (hostBytes true wordSize v).reverse.length = wordSize := by
        simp [hostBytes_length]
      rw [List.take_of_length_le (le_of_eq hrl), List.reverse_reverse]
      rw [valOfBytes_hostBytes true wordSize v hv]

theorem rndup_eq_pad (n : Nat) :
    (if 0 < n % wordSize then wordSize - n % wordSize else 0)
      = (wordSize - n % wordSize) % wordSize := by
  have := Nat.mod_lt n (show 0 < wordSize by norm_num [wordSize])
  split <;> simp only [wordSize] at * <;> omega

theorem encodeBlock_eq (p : List Nat) :
    encodeBlock p =
      p ++ List.replicate ((wordSize - p.length % wordSize) % wordSize) 0 := by
  unfold encodeBlock XDR.writeBlock
  simp only [outWrite, freshOut, Bool.false_eq_true, if_false, List.nil_append,
    rndup_eq_pad]

theorem readBlock_encodeBlock (p : List Nat) :
    XDR.readBlock ⟨encodeBlock p, false⟩ p.length =
      ((if p.length = 0 then 1 else p.length), p, ⟨[], false⟩) := by
  rcases Nat.eq_zero_or_pos p.length with h0 | hpos
  · have : p = [] := List.eq_nil_of_length_eq_zero h0
    subst this
    simp [XDR.readBlock, encodeBlock_eq, wordSize]
  · have hne : p.length ≠ 0 := Nat.pos_iff_ne_zero.mp hpos
    rw [encodeBlock_eq, if_neg hne]
    set pad := (wordSize - p.length % wordSize) % wordSize with hpaddef
    have hread1 : inRead ⟨p ++ List.replicate pad 0, false⟩ p.length =
        (p, ⟨List.replicate pad 0, false⟩) := by
      unfold inRead
      rw [if_neg (by simp), if_pos (by simp)]
      rw [List.take_left' rfl, List.drop_left' rfl]
    unfold XDR.readBlock
    rw [if_neg hne]
    simp only [rndup_eq_pad, ← hpaddef, hread1, Bool.false_eq_true, if_false]
    rcases Nat.eq_zero_or_pos pad with hp0 | hppos
    · rw [hp0]
      simp
    · rw [if_pos hppos]
      have hread2 : inRead ⟨List.replicate pad (0:Nat), false⟩ pad =
          (List.replicate pad 0, ⟨[], false⟩) := by
        unfold inRead
        rw [if_neg (by simp), if_pos (by simp)]
        simp
      rw [hread2]

theorem encWord_length (hostLE : Bool) (size v : Nat) (hsz : size ≤ wordSize) :
    (if 1 < size ∧ hostLE then
      (hostBytes hostLE size v ++ List.replicate (wordSize - size) 0).reverse
    else hostBytes hostLE size v ++ List.replicate (wordSize - size) 0).length
      = wordSize := by
  split <;> simp [hostBytes_length] <;> omega

/-! ## MultiTrajectory lemmas -/

theorem usableCount_eq_zero_iff (skip stride n : Nat) :
    usableCount skip stride n = 0 ↔ n ≤ skip := by
  unfold usableCount
  by_cases h : skip < n
  · rw [if_pos h]
    exact ⟨fun hc => absurd hc (Nat.succ_ne_zero _),
      fun hc => absurd h (Nat.not_lt.mpr hc)⟩
  · rw [if_neg h]
    exact ⟨fun _ => Nat.not_lt.mp h, fun _ => rfl⟩

theorem usableCount_pos_iff (skip stride n : Nat) :
    0 < usableCount skip stride n ↔ skip < n := by
  unfold usableCount
  by_cases h : skip < n
  · rw [if_pos h]
    exact ⟨fun _ => h, fun _ => Nat.succ_pos _⟩
  · rw [if_neg h]
    exact ⟨fun hc => absurd hc (lt_irrefl 0), fun hc => absurd hc h⟩

theorem lt_count_of_lt_usable (skip stride n m : Nat)
    (h : m < usableCount skip stride n) : skip + m * stride < n := by
  unfold usableCount at h
  by_cases hlt : skip < n
  · rw [if_pos hlt] at h
    have hm : m ≤ (n - skip - 1) / stride := by omega
    have h1 : m * stride ≤ (n - skip - 1) / stride * stride :=
      Nat.mul_le_mul_right stride hm
    have h2 : (n - skip - 1) / stride * stride ≤ n - skip - 1 :=
      Nat.div_mul_le_self _ _
    omega
  · rw [if_neg hlt] at h
    omega

theorem count_le_usable_stride (skip stride n : Nat)
    (hstride : 0 < stride) (h : skip < n) :
    n ≤ skip + usableCount skip stride n * stride := by
  unfold usableCount
  rw [if_pos h, Nat.succ_mul]
  have hdm := Nat.div_add_mod (n - skip - 1) stride
  have hml : (n - skip - 1) % stride < stride := Nat.mod_lt _ hstride
  rw [Nat.mul_comm stride ((n - skip - 1) / stride)] at hdm
  omega

theorem cumUsable_zero (skip stride : Nat) (counts : List Nat) :
    cumUsable skip stride counts 0 = 0 := rfl

theorem cumUsable_succ (skip stride : Nat) (counts : List Nat) (t : Nat)
    (ht : t < counts.length) :
    cumUsable skip stride counts (t + 1)
      = cumUsable skip stride counts t
        + usableCount skip stride (counts.getD t 0) := by
  unfold cumUsable totalFrames
  rw [List.take_succ, List.map_append, List.sum_append]
  congr 1
  rw [List.getElem?_eq_getElem ht]
  rw [List.getD_eq_getElem _ _ ht]
  simp

theorem cumUsable_of_len_le (skip stride : Nat) (counts : List Nat) (t : Nat)
    (h : counts.length ≤ t) :
    cumUsable skip stride counts t = totalFrames skip stride counts := by
  unfold cumUsable
  rw [List.take_of_length_le h]

theorem cumUsable_mono (skip stride : Nat) (counts : List Nat) {t t' : Nat}
    (h : t ≤ t') :
    cumUsable skip stride counts t ≤ cumUsable skip stride counts t' := by
  induction h with
  | refl => exact le_refl _
  | @step m hm ih =>
    refine le_trans ih ?_
    by_cases hmlen : m < counts.length
    · rw [cumUsable_succ skip stride counts m hmlen]
      exact Nat.le_add_right _ _
    · rw [cumUsable_of_len_le skip stride counts m (by omega),
        cumUsable_of_len_le skip stride counts (m + 1) (by omega)]

theorem cumUsable_le_total (skip stride : Nat) (counts : List Nat) (t : Nat) :
    cumUsable skip stride counts t ≤ totalFrames skip stride counts := by
  rcases le_or_lt t counts.length with h | h
  · calc cumUsable skip stride counts t
        ≤ cumUsable skip stride counts counts.length := cumUsable_mono skip stride counts h
      _ = totalFrames skip stride counts :=
        cumUsable_of_len_le skip stride counts _ (le_refl _)
  · rw [cumUsable_of_len_le skip stride counts t (le_of_lt h)]

theorem getD_drop (counts : List Nat) (cur k d : Nat) :
    (counts.drop cur).getD k d = counts.getD (cur + k) d := by
  rw [List.getD_eq_getElem?_getD, List.getD_eq_getElem?_getD, List.getElem?_drop]

/-- Combined specification of the findNextUsable scan over a suffix:
the result lies between the start index and one past the scanned range,
every index strictly before the result is unusable, and a result inside
the range is usable. -/
theorem findNextUsableFrom_spec (skip : Nat) (l : List Nat) :
    ∀ cur : Nat,
      cur ≤ findNextUsableFrom skip l cur ∧
      findNextUsableFrom skip l cur ≤ cur + l.length ∧
      (∀ j, cur ≤ j → j < findNextUsableFrom skip l cur →
        l.getD (j - cur) 0 ≤ skip) ∧
      (findNextUsableFrom skip l cur < cur + l.length →
        skip < l.getD (findNextUsableFrom skip l cur - cur) 0) := by
  induction l with
  | nil =>
    intro cur
    refine ⟨le_refl _, by simp [findNextUsableFrom], ?_, ?_⟩
    · intro j h1 h2
      simp [findNextUsableFrom] at h2
      omega
    · intro h
      simp [findNextUsableFrom] at h
  | cons n rest ih =>
    intro cur
    by_cases hn : skip < n
    · have hres : findNextUsableFrom skip (n :: rest) cur = cur := by
        unfold findNextUsableFrom
        rw [if_pos hn]
      refine ⟨le_of_eq hres.symm, ?_, ?_, ?_⟩
      · rw [hres]; omega
      · intro j h1 h2
        rw [hres] at h2
        omega
      · intro _
        rw [hres]
        simpa using hn
    · have hres : findNextUsableFrom skip (n :: rest) cur
          = findNextUsableFrom skip rest (cur + 1) := by
        show (if skip < n then cur else findNextUsableFrom skip rest (cur + 1))
            = findNextUsableFrom skip rest (cur + 1)
        rw [if_neg hn]
      obtain ⟨ih1, ih2, ih3, ih4⟩ := ih (cur + 1)
      refine ⟨?_, ?_, ?_, ?_⟩
      · rw [hres]; omega
      · rw [hres]
        simp only [List.length_cons]
        omega
      · intro j h1 h2
        rw [hres] at h2
        rcases Nat.eq_or_lt_of_le h1 with rfl | hjgt
        · simpa [Nat.sub_self] using le_of_not_lt hn
        · have hj1 : cur + 1 ≤ j := hjgt
          have := ih3 j hj1 h2
          have hsub : j - cur = (j - (cur + 1)) + 1 := by omega
          rw [hsub, List.getD_cons_succ]
          exact this
      · intro h
        rw [hres]
        rw [hres] at h
        have hlt : findNextUsableFrom skip rest (cur + 1) < (cur + 1) + rest.length := by
          simp only [List.length_cons] at h
          omega
        have := ih4 hlt
        have hsub : findNextUsableFrom skip rest (cur + 1) - cur
            = (findNextUsableFrom skip rest (cur + 1) - (cur + 1)) + 1 := by omega
        rw [hsub, List.getD_cons_succ]
        exact this

theorem findNextUsable_ge (counts : List Nat) (skip cur : Nat) :
    cur ≤ findNextUsable counts skip cur :=
  (findNextUsableFrom_spec skip (counts.drop cur) cur).1

theorem findNextUsable_le (counts : List Nat) (skip cur : Nat)
    (h : cur ≤ counts.length) :
    findNextUsable counts skip cur ≤ counts.length := by
  have := (findNextUsableFrom_spec skip (counts.drop cur) cur).2.1
  unfold findNextUsable
  rw [List.length_drop] at this
  omega

theorem findNextUsable_usable (counts : List Nat) (skip cur : Nat)
    (h : findNextUsable counts skip cur < counts.length) :
    skip < counts.getD (findNextUsable counts skip cur) 0 := by
  obtain ⟨h1, h2, _, h4⟩ := findNextUsableFrom_spec skip (counts.drop cur) cur
  unfold findNextUsable at h ⊢
  have hcur : cur ≤ counts.length := by
    rcases le_or_lt cur counts.length with hc | hc
    · exact hc
    · exfalso
      rw [List.drop_eq_nil_of_le (le_of_lt hc)] at h h1 h2
      simp [findNextUsableFrom] at h h1 h2
      omega
  rw [List.length_drop] at h2 h4
  have hin : findNextUsableFrom skip (counts.drop cur) cur < cur + (counts.length - cur) := by
    omega
  have := h4 hin
  rw [getD_drop] at this
  have heq : cur + (findNextUsableFrom skip (counts.drop cur) cur - cur)
      = findNextUsableFrom skip (counts.drop cur) cur := by omega
  rw [heq] at this
  exact this

theorem findNextUsable_before (counts : List Nat) (skip cur j : Nat)
    (h1 : cur ≤ j) (h2 : j < findNextUsable counts skip cur) :
    counts.getD j 0 ≤ skip := by
  have := (findNextUsableFrom_spec skip (counts.drop cur) cur).2.2.1 j h1 h2
  rw [getD_drop] at this
  have heq : cur + (j - cur) = j := by omega
  rw [heq] at this
  exact this

theorem findNextUsable_found (counts : List Nat) (skip cur t : Nat)
    (hct : cur ≤ t) (ht : t < counts.length)
    (husable : skip < counts.getD t 0)
    (hbefore : ∀ j, cur ≤ j → j < t → counts.getD j 0 ≤ skip) :
    findNextUsable counts skip cur = t := by
  have hle : findNextUsable counts skip cur ≤ counts.length :=
    findNextUsable_le counts skip cur (by omega)
  have hge := findNextUsable_ge counts skip cur
  rcases lt_trichotomy (findNextUsable counts skip cur) t with hlt | heq | hgt
  · have hu := findNextUsable_usable counts skip cur (by omega)
    have := hbefore _ hge hlt
    omega
  · exact heq
  · have := findNextUsable_before counts skip cur t hct hgt
    omega

/-- Specification of the frameIndexToLocation walk over a generic count
list: for an in-range virtual index the returned source index is in range,
the index falls inside that source's usable interval, and the returned
native offset follows the skip/stride formula. -/
theorem frameLocAux_spec (skip stride : Nat) (l : List Nat) :
    ∀ i : Nat, i < (l.map (usableCount skip stride)).sum →
      (frameLocAux skip stride l i).1 < l.length ∧
      ((l.take (frameLocAux skip stride l i).1).map (usableCount skip stride)).sum ≤ i ∧
      i < ((l.take (frameLocAux skip stride l i).1).map (usableCount skip stride)).sum
        + usableCount skip stride (l.getD (frameLocAux skip stride l i).1 0) ∧
      (frameLocAux skip stride l i).2
        = skip + (i - ((l.take (frameLocAux skip stride l i).1).map
            (usableCount skip stride)).sum) * stride := by
  induction l with
  | nil =>
    intro i hi
    simp at hi
  | cons n rest ih =>
    intro i hi
    by_cases h0 : i < usableCount skip stride n
    · have hres : frameLocAux skip stride (n :: rest) i = (0, skip + i * stride) := by
        unfold frameLocAux
        rw [if_pos h0]
      rw [hres]
      refine ⟨by simp, by simp, ?_, by simp⟩
      simpa using h0
    · have hle : usableCount skip stride n ≤ i := le_of_not_lt h0
      have hrest : i - usableCount skip stride n < (rest.map (usableCount skip stride)).sum := by
        simp only [List.map_cons, List.sum_cons] at hi
        omega
      obtain ⟨ih1, ih2, ih3, ih4⟩ := ih (i - usableCount skip stride n) hrest
      have hres : frameLocAux skip stride (n :: rest) i
          = ((frameLocAux skip stride rest (i - usableCount skip stride n)).1 + 1,
             (frameLocAux skip stride rest (i - usableCount skip stride n)).2) := by
        show (if i < usableCount skip stride n then ((0:Nat), skip + i * stride)
            else ((frameLocAux skip stride rest (i - usableCount skip stride n)).1 + 1,
              (frameLocAux skip stride rest (i - usableCount skip stride n)).2))
          = ((frameLocAux skip stride rest (i - usableCount skip stride n)).1 + 1,
             (frameLocAux skip stride rest (i - usableCount skip stride n)).2)
        rw [if_neg h0]
      rw [hres]
      refine ⟨by simpa using ih1, ?_, ?_, ?_⟩
      · simp only [List.take_succ_cons, List.map_cons, List.sum_cons]
        omega
      · simp only [List.take_succ_cons, List.map_cons, List.sum_cons, List.getD_cons_succ]
        omega
      · simp only [List.take_succ_cons, List.map_cons, List.sum_cons]
        rw [ih4, Nat.sub_sub]

theorem frameLoc_spec (skip stride : Nat) (counts : List Nat) (i : Nat)
    (hi : i < totalFrames skip stride counts) :
    (frameLocAux skip stride counts i).1 < counts.length ∧
    cumUsable skip stride counts (frameLocAux skip stride counts i).1 ≤ i ∧
    i < cumUsable skip stride counts (frameLocAux skip stride counts i).1
      + usableCount skip stride (counts.getD (frameLocAux skip stride counts i).1 0) ∧
    (frameLocAux skip stride counts i).2
      = skip + (i - cumUsable skip stride counts (frameLocAux skip stride counts i).1)
          * stride :=
  frameLocAux_spec skip stride counts i hi

theorem owner_unique (skip stride : Nat) (counts : List Nat) (i t t' : Nat)
    (ht : t < counts.length) (ht' : t' < counts.length)
    (h1 : cumUsable skip stride counts t ≤ i)
    (h2 : i < cumUsable skip stride counts t
      + usableCount skip stride (counts.getD t 0))
    (h1' : cumUsable skip stride counts t' ≤ i)
    (h2' : i < cumUsable skip stride counts t'
      + usableCount skip stride (counts.getD t' 0)) :
    t = t' := by
  rcases lt_trichotomy t t' with hlt | heq | hgt
  · exfalso
    have hs := cumUsable_succ skip stride counts t ht
    have hm : cumUsable skip stride counts (t + 1) ≤ cumUsable skip stride counts t' :=
      cumUsable_mono skip stride counts hlt
    omega
  · exact heq
  · exfalso
    have hs := cumUsable_succ skip stride counts t' ht'
    have hm : cumUsable skip stride counts (t' + 1) ≤ cumUsable skip stride counts t :=
      cumUsable_mono skip stride counts hgt
    omega

theorem eofState_false_iff (st : MultiTrajectory) :
    eofState st = false ↔ st.curtraj < st.counts.length := by
  unfold eofState
  rw [decide_eq_false_iff_not]
  omega

theorem eofState_true_iff (st : MultiTrajectory) :
    eofState st = true ↔ st.counts.length ≤ st.curtraj := by
  unfold eofState
  rw [decide_eq_true_eq]

theorem seekNext_config (st : MultiTrajectory) :
    (seekNextFrameImpl st).counts = st.counts ∧
    (seekNextFrameImpl st).skip = st.skip ∧
    (seekNextFrameImpl st).stride = st.stride ∧
    (seekNextFrameImpl st).caches = st.caches := by
  unfold seekNextFrameImpl
  split
  · exact ⟨rfl, rfl, rfl, rfl⟩
  · split <;> exact ⟨rfl, rfl, rfl, rfl⟩

theorem iterate_config (st : MultiTrajectory) (k : Nat) :
    (seekNextFrameImpl^[k] st).counts = st.counts ∧
    (seekNextFrameImpl^[k] st).skip = st.skip ∧
    (seekNextFrameImpl^[k] st).stride = st.stride ∧
    (seekNextFrameImpl^[k] st).caches = st.caches := by
  induction k with
  | zero => exact ⟨rfl, rfl, rfl, rfl⟩
  | succ k ih =>
    rw [Function.iterate_succ_apply']
    obtain ⟨h1, h2, h3, h4⟩ := seekNext_config (seekNextFrameImpl^[k] st)
    obtain ⟨i1, i2, i3, i4⟩ := ih
    exact ⟨h1.trans i1, h2.trans i2, h3.trans i3, h4.trans i4⟩

theorem trajReadFrame_frame (st : MultiTrajectory) (t f : Nat) :
    (trajReadFrame st t f).2.counts = st.counts ∧
    (trajReadFrame st t f).2.skip = st.skip ∧
    (trajReadFrame st t f).2.stride = st.stride ∧
    (trajReadFrame st t f).2.curtraj = st.curtraj ∧
    (trajReadFrame st t f).2.curframe = st.curframe := by
  unfold trajReadFrame
  split <;> exact ⟨rfl, rfl, rfl, rfl, rfl⟩

theorem rewind_basic (st : MultiTrajectory) :
    (rewindImpl st).counts = st.counts ∧
    (rewindImpl st).skip = st.skip ∧
    (rewindImpl st).stride = st.stride ∧
    (rewindImpl st).curtraj = findNextUsable st.counts st.skip 0 ∧
    (rewindImpl st).curframe = st.skip := by
  unfold rewindImpl
  split
  · exact ⟨rfl, rfl, rfl, rfl, rfl⟩
  · exact trajReadFrame_frame _ _ _

theorem seekNext_eof (st : MultiTrajectory) (h : eofState st = true) :
    seekNextFrameImpl st = st := by
  unfold seekNextFrameImpl
  rw [if_pos h]

theorem seekNext_within (st : MultiTrajectory) (hne : eofState st = false)
    (hlt : st.curframe + st.stride < st.counts.getD st.curtraj 0) :
    seekNextFrameImpl st = { st with curframe := st.curframe + st.stride } := by
  unfold seekNextFrameImpl
  rw [hne]
  simp only [Bool.false_eq_true, if_false]
  rw [if_neg (by omega)]

theorem seekNext_boundary (st : MultiTrajectory) (hne : eofState st = false)
    (hge : st.counts.getD st.curtraj 0 ≤ st.curframe + st.stride) :
    seekNextFrameImpl st
      = { st with curframe := st.skip,
                  curtraj := findNextUsable st.counts st.skip (st.curtraj + 1) } := by
  unfold seekNextFrameImpl
  rw [hne]
  simp only [Bool.false_eq_true, if_false]
  rw [if_pos hge]

/-- The core equivalence behind sequential iteration: after a rewind, k
sequential advances position the cursor exactly where the random-access
index computation sends virtual index k. -/
theorem advance_chain (st : MultiTrajectory) (hstride : 0 < st.stride) :
    ∀ k, k < totalFrames st.skip st.stride st.counts →
      cursorOf (seekNextFrameImpl^[k] (rewindImpl st))
        = frameLocAux st.skip st.stride st.counts k := by
  intro k
  induction k with
  | zero =>
    intro hk
    obtain ⟨rc, rs, rst, rt, rf⟩ := rewind_basic st
    obtain ⟨f1, f2, f3, f4⟩ := frameLoc_spec st.skip st.stride st.counts 0 hk
    have hcum0 : cumUsable st.skip st.stride st.counts
        (frameLocAux st.skip st.stride st.counts 0).1 = 0 := Nat.le_zero.mp f2
    have hfst : findNextUsable st.counts st.skip 0
        = (frameLocAux st.skip st.stride st.counts 0).1 := by
      apply findNextUsable_found
      · exact Nat.zero_le _
      · exact f1
      · rw [← usableCount_pos_iff st.skip st.stride]
        omega
      · intro j hj0 hjlt
        rw [← usableCount_eq_zero_iff st.skip st.stride]
        have hjlen : j < st.counts.length := by omega
        have hsucc := cumUsable_succ st.skip st.stride st.counts j hjlen
        have hmono := cumUsable_mono st.skip st.stride st.counts
          (show j + 1 ≤ (frameLocAux st.skip st.stride st.counts 0).1 from hjlt)
        omega
    have hsnd : (frameLocAux st.skip st.stride st.counts 0).2 = st.skip := by
      rw [f4, hcum0]
      simp
    show cursorOf (rewindImpl st) = frameLocAux st.skip st.stride st.counts 0
    unfold cursorOf
    rw [rt, rf, Prod.ext_iff]
    exact ⟨hfst, hsnd.symm⟩
  | succ k ih =>
    intro hk1
    have hk : k < totalFrames st.skip st.stride st.counts := by omega
    have ihk := ih hk
    obtain ⟨rc, rs, rst, _, _⟩ := rewind_basic st
    obtain ⟨ic, isk, istr, _⟩ := iterate_config (rewindImpl st) k
    have hAc : (seekNextFrameImpl^[k] (rewindImpl st)).counts = st.counts := ic.trans rc
    have hAs : (seekNextFrameImpl^[k] (rewindImpl st)).skip = st.skip := isk.trans rs
    have hAst : (seekNextFrameImpl^[k] (rewindImpl st)).stride = st.stride := istr.trans rst
    obtain ⟨f1, f2, f3, f4⟩ := frameLoc_spec st.skip st.stride st.counts k hk
    have hAt : (seekNextFrameImpl^[k] (rewindImpl st)).curtraj
        = (frameLocAux st.skip st.stride st.counts k).1 := congrArg Prod.fst ihk
    have hAf : (seekNextFrameImpl^[k] (rewindImpl st)).curframe
        = (frameLocAux st.skip st.stride st.counts k).2 := congrArg Prod.snd ihk
    have heof : eofState (seekNextFrameImpl^[k] (rewindImpl st)) = false := by
      rw [eofState_false_iff, hAt, hAc]
      exact f1
    obtain ⟨g1, g2, g3, g4⟩ := frameLoc_spec st.skip st.stride st.counts (k + 1) hk1
    rw [Function.iterate_succ_apply']
    by_cases hin : k + 1 < cumUsable st.skip st.stride st.counts
        (frameLocAux st.skip st.stride st.counts k).1
        + usableCount st.skip st.stride
            (st.counts.getD (frameLocAux st.skip st.stride st.counts k).1 0)
    · -- the next virtual frame stays inside the current source
      have hsub : (k + 1) - cumUsable st.skip st.stride st.counts
          (frameLocAux st.skip st.stride st.counts k).1
          = (k - cumUsable st.skip st.stride st.counts
              (frameLocAux st.skip st.stride st.counts k).1) + 1 := by omega
      have harith : (frameLocAux st.skip st.stride st.counts k).2 + st.stride
          = st.skip + ((k + 1) - cumUsable st.skip st.stride st.counts
              (frameLocAux st.skip st.stride st.counts k).1) * st.stride := by
        rw [f4, hsub, Nat.succ_mul]
        omega
      have hcnt : st.skip + ((k + 1) - cumUsable st.skip st.stride st.counts
            (frameLocAux st.skip st.stride st.counts k).1) * st.stride
          < st.counts.getD (frameLocAux st.skip st.stride st.counts k).1 0 := by
        apply lt_count_of_lt_usable
        omega
      have hlt : (seekNextFrameImpl^[k] (rewindImpl st)).curframe
            + (seekNextFrameImpl^[k] (rewindImpl st)).stride
          < (seekNextFrameImpl^[k] (rewindImpl st)).counts.getD
              (seekNextFrameImpl^[k] (rewindImpl st)).curtraj 0 := by
        rw [hAf, hAst, hAc, hAt, harith]
        exact hcnt
      rw [seekNext_within _ heof hlt]
      have ht1 : (frameLocAux st.skip st.stride st.counts (k + 1)).1
          = (frameLocAux st.skip st.stride st.counts k).1 :=
        owner_unique st.skip st.stride st.counts (k + 1) _ _ g1 f1 g2 g3 (by omega) hin
      unfold cursorOf
      rw [Prod.ext_iff]
      constructor
      · show (seekNextFrameImpl^[k] (rewindImpl st)).curtraj
            = (frameLocAux st.skip st.stride st.counts (k + 1)).1
        rw [ht1]
        exact hAt
      · show (seekNextFrameImpl^[k] (rewindImpl st)).curframe
              + (seekNextFrameImpl^[k] (rewindImpl st)).stride
            = (frameLocAux st.skip st.stride st.counts (k + 1)).2
        rw [g4, ht1, hAf, hAst, harith]
    · -- the next virtual frame starts the next usable source
      have hbd : k + 1 = cumUsable st.skip st.stride st.counts
          (frameLocAux st.skip st.stride st.counts k).1
          + usableCount st.skip st.stride
              (st.counts.getD (frameLocAux st.skip st.stride st.counts k).1 0) := by
        omega
      have hupos : 0 < usableCount st.skip st.stride
          (st.counts.getD (frameLocAux st.skip st.stride st.counts k).1 0) := by omega
      have husable : st.skip
          < st.counts.getD (frameLocAux st.skip st.stride st.counts k).1 0 :=
        (usableCount_pos_iff st.skip st.stride _).mp hupos
      have hsub : (k - cumUsable st.skip st.stride st.counts
            (frameLocAux st.skip st.stride st.counts k).1) + 1
          = usableCount st.skip st.stride
              (st.counts.getD (frameLocAux st.skip st.stride st.counts k).1 0) := by
        omega
      have harith : (frameLocAux st.skip st.stride st.counts k).2 + st.stride
          = st.skip + usableCount st.skip st.stride
              (st.counts.getD (frameLocAux st.skip st.stride st.counts k).1 0)
              * st.stride := by
        rw [f4, ← hsub, Nat.succ_mul]
        omega
      have hge : (seekNextFrameImpl^[k] (rewindImpl st)).counts.getD
            (seekNextFrameImpl^[k] (rewindImpl st)).curtraj 0
          ≤ (seekNextFrameImpl^[k] (rewindImpl st)).curframe
            + (seekNextFrameImpl^[k] (rewindImpl st)).stride := by
        rw [hAf, hAst, hAc, hAt, harith]
        exact count_le_usable_stride st.skip st.stride _ hstride husable
      rw [seekNext_boundary _ heof hge]
      -- the owner of k+1 is the next usable source after t
      have htlt : (frameLocAux st.skip st.stride st.counts k).1
          < (frameLocAux st.skip st.stride st.counts (k + 1)).1 := by
        by_contra hcon
        have hle2 : (frameLocAux st.skip st.stride st.counts (k + 1)).1
            ≤ (frameLocAux st.skip st.stride st.counts k).1 := le_of_not_lt hcon
        have hs1 := cumUsable_succ st.skip st.stride st.counts _ g1
        have hs2 := cumUsable_succ st.skip st.stride st.counts _ f1
        have hm : cumUsable st.skip st.stride st.counts
            ((frameLocAux st.skip st.stride st.counts (k + 1)).1 + 1)
            ≤ cumUsable st.skip st.stride st.counts
              ((frameLocAux st.skip st.stride st.counts k).1 + 1) :=
          cumUsable_mono st.skip st.stride st.counts (by omega)
        omega
      have hcumnext := cumUsable_succ st.skip st.stride st.counts _ f1
      have hmono2 : cumUsable st.skip st.stride st.counts
          ((frameLocAux st.skip st.stride st.counts k).1 + 1)
          ≤ cumUsable st.skip st.stride st.counts
            (frameLocAux st.skip st.stride st.counts (k + 1)).1 :=
        cumUsable_mono st.skip st.stride st.counts (by omega)
      have hcum' : cumUsable st.skip st.stride st.counts
          (frameLocAux st.skip st.stride st.counts (k + 1)).1 = k + 1 := by
        omega
      have hupos' : 0 < usableCount st.skip st.stride
          (st.counts.getD (frameLocAux st.skip st.stride st.counts (k + 1)).1 0) := by
        omega
      have hfind : findNextUsable st.counts st.skip
            ((frameLocAux st.skip st.stride st.counts k).1 + 1)
          = (frameLocAux st.skip st.stride st.counts (k + 1)).1 := by
        apply findNextUsable_found
        · omega
        · exact g1
        · exact (usableCount_pos_iff st.skip st.stride _).mp hupos'
        · intro j hj1 hj2
          rw [← usableCount_eq_zero_iff st.skip st.stride]
          have hjlen : j < st.counts.length := by omega
          have hsj := cumUsable_succ st.skip st.stride st.counts j hjlen
          have hmj1 : cumUsable st.skip st.stride st.counts (j + 1)
              ≤ cumUsable st.skip st.stride st.counts
                (frameLocAux st.skip st.stride st.counts (k + 1)).1 :=
            cumUsable_mono st.skip st.stride st.counts (by omega)
          have hmj2 : cumUsable st.skip st.stride st.counts
              ((frameLocAux st.skip st.stride st.counts k).1 + 1)
              ≤ cumUsable st.skip st.stride st.counts j :=
            cumUsable_mono st.skip st.stride st.counts (by omega)
          omega
      have hsnd' : (frameLocAux st.skip st.stride st.counts (k + 1)).2 = st.skip := by
        rw [g4, hcum']
        simp
      unfold cursorOf
      rw [Prod.ext_iff]
      constructor
      · show findNextUsable (seekNextFrameImpl^[k] (rewindImpl st)).counts
              (seekNextFrameImpl^[k] (rewindImpl st)).skip
              ((seekNextFrameImpl^[k] (rewindImpl st)).curtraj + 1)
            = (frameLocAux st.skip st.stride st.counts (k + 1)).1
        rw [hAc, hAs, hAt, hfind]
      · show (seekNextFrameImpl^[k] (rewindImpl st)).skip
            = (frameLocAux st.skip st.stride st.counts (k + 1)).2
        rw [hAs, hsnd']

theorem getD_set_self {α : Type} (l : List α) (n : Nat) (a d : α)
    (h : n < l.length) : (l.set n a).getD n d = a := by
  rw [List.getD_eq_getElem?_getD, List.getElem?_set_self h]
  rfl

/-- The no-end-of-stream branch of rewindImpl: the eager read succeeds and
caches the frame at native offset skip in the first usable source. -/
theorem rewind_caches (st : MultiTrajectory)
    (hwf : st.caches.length = st.counts.length)
    (hne : eofState (rewindImpl st) = false) :
    (rewindImpl st).caches.getD (rewindImpl st).curtraj none = some st.skip := by
  obtain ⟨rc, rs, rst, rt, rf⟩ := rewind_basic st
  have hF0 : findNextUsable st.counts st.skip 0 < st.counts.length := by
    rw [eofState_false_iff, rt, rc] at hne
    exact hne
  have husable : st.skip < st.counts.getD (findNextUsable st.counts st.skip 0) 0 :=
    findNextUsable_usable st.counts st.skip 0 hF0
  have hreq : eofState (rewindState st) = false := by
    rw [eofState_false_iff]
    exact hF0
  have hrew : rewindImpl st = (trajReadFrame (rewindState st) (rewindState st).curtraj
      (rewindState st).curframe).2 := by
    unfold rewindImpl
    rw [hreq]
    simp only [Bool.false_eq_true, if_false]
  have hread : (trajReadFrame (rewindState st) (rewindState st).curtraj
      (rewindState st).curframe).2
      = { rewindState st with
          caches := (rewindState st).caches.set (rewindState st).curtraj
            (some (rewindState st).curframe) } := by
    unfold trajReadFrame
    rw [if_pos (show (rewindState st).curframe
      < (rewindState st).counts.getD (rewindState st).curtraj 0 from husable)]
  rw [hrew, hread]
  show ((st.caches.map (fun _ => none)).set (findNextUsable st.counts st.skip 0)
      (some st.skip)).getD (findNextUsable st.counts st.skip 0) none = some st.skip
  apply getD_set_self
  rw [List.length_map, hwf]
  exact hF0

/-- Invariant behind claim C6: starting from any rewind, the cursor only
ever rests on sources whose native frame count exceeds skip. -/
theorem cursor_usable_invariant (st : MultiTrajectory) (k : Nat)
    (hlt : (seekNextFrameImpl^[k] (rewindImpl st)).curtraj < st.counts.length) :
    st.skip < st.counts.getD (seekNextFrameImpl^[k] (rewindImpl st)).curtraj 0 := by
  induction k with
  | zero =>
    simp only [Function.iterate_zero_apply] at hlt ⊢
    obtain ⟨rc, rs, rst, rt, rf⟩ := rewind_basic st
    rw [rt] at hlt ⊢
    exact findNextUsable_usable st.counts st.skip 0 hlt
  | succ k ih =>
    rw [Function.iterate_succ_apply'] at hlt ⊢
    obtain ⟨rc, rs, _, _, _⟩ := rewind_basic st
    obtain ⟨ic, isk, _, _⟩ := iterate_config (rewindImpl st) k
    have hAc : (seekNextFrameImpl^[k] (rewindImpl st)).counts = st.counts := ic.trans rc
    have hAs : (seekNextFrameImpl^[k] (rewindImpl st)).skip = st.skip := isk.trans rs
    by_cases heof : eofState (seekNextFrameImpl^[k] (rewindImpl st)) = true
    · rw [seekNext_eof _ heof] at hlt ⊢
      exact ih hlt
    · have heof' : eofState (seekNextFrameImpl^[k] (rewindImpl st)) = false :=
        Bool.not_eq_true _ ▸ (Bool.eq_false_iff.mpr heof)
      by_cases hc : (seekNextFrameImpl^[k] (rewindImpl st)).counts.getD
            (seekNextFrameImpl^[k] (rewindImpl st)).curtraj 0
          ≤ (seekNextFrameImpl^[k] (rewindImpl st)).curframe
            + (seekNextFrameImpl^[k] (rewindImpl st)).stride
      · rw [seekNext_boundary _ heof' hc] at hlt ⊢
        show st.skip < st.counts.getD (findNextUsable
          (seekNextFrameImpl^[k] (rewindImpl st)).counts
          (seekNextFrameImpl^[k] (rewindImpl st)).skip
          ((seekNextFrameImpl^[k] (rewindImpl st)).curtraj + 1)) 0
        rw [hAc, hAs]
        apply findNextUsable_usable
        have hlt2 : findNextUsable (seekNextFrameImpl^[k] (rewindImpl st)).counts
            (seekNextFrameImpl^[k] (rewindImpl st)).skip
            ((seekNextFrameImpl^[k] (rewindImpl st)).curtraj + 1) < st.counts.length := hlt
        rw [hAc, hAs] at hlt2
        exact hlt2
      · rw [seekNext_within _ heof' (by omega)] at hlt ⊢
        exact ih hlt

theorem encodeHeader_length (natoms nsteps : Nat) (hasbox : Bool) (titles : List Nat) :
    (encodeHeader natoms nsteps hasbox titles).length = 3 + titles.length := by
  simp [encodeHeader]
  omega

/-! ## Claim theorems -/

/-- Claim C2, counterexample: on a little-endian host (where the runtime
probe sets the swab flag) a 2-byte scalar does not round-trip through the
codec — the write path byte-swaps the whole 4-byte word while the read
path byte-swaps only the 2-byte value, so encoding the value 1 decodes to
0. -/
theorem xdr_scalar_roundtrip_cex :
    decodeScalar true 2 (encodeScalar true 2 1) ≠ some 1 := by
  decide

/-- Claim C2 (amended): decoding the encoding of a scalar returns the
original value when the host needs no byte swap or the scalar is one byte
or exactly one word wide (for a 2- or 3-byte scalar on a swab host the
write and read paths swab different object widths and the round-trip
fails); a block read after a block write of any length yields the same
bytes, the encoding appends exactly
`(wordSize - n % wordSize) % wordSize` zero padding bytes which the block
read consumes entirely, and every encoded transfer is a whole number of
words. -/
theorem xdr_roundtrip (hostLE : Bool) (size v : Nat) (p : List Nat)
    (hsz : size ≤ wordSize) (hv : v < 256 ^ size)
    (hok : hostLE = false ∨ size = 1 ∨ size = wordSize) :
    decodeScalar hostLE size (encodeScalar hostLE size v) = some v ∧
    encodeBlock p = p ++ List.replicate ((wordSize - p.length % wordSize) % wordSize) 0 ∧
    (encodeBlock p).length % wordSize = 0 ∧
    (XDR.readBlock ⟨encodeBlock p, false⟩ p.length).2.1 = p ∧
    (XDR.readBlock ⟨encodeBlock p, false⟩ p.length).2.2 = ⟨[], false⟩ := by
  refine ⟨decode_encode_scalar hostLE size v hsz hv hok, encodeBlock_eq p, ?_, ?_, ?_⟩
  · rw [encodeBlock_eq]
    simp only [List.length_append, List.length_replicate, wordSize]
    omega
  · rw [readBlock_encodeBlock]
  · rw [readBlock_encodeBlock]

/-- Witness for C2 at a concrete input: a full-word scalar on a
little-endian host and a 3-byte block. -/
theorem xdr_roundtrip_witness :
    decodeScalar true 4 (encodeScalar true 4 7) = some 7 ∧
    encodeBlock [1, 2, 3]
      = [1, 2, 3] ++ List.replicate ((wordSize - [1, 2, 3].length % wordSize) % wordSize) 0 ∧
    (encodeBlock [1, 2, 3]).length % wordSize = 0 ∧
    (XDR.readBlock ⟨encodeBlock [1, 2, 3], false⟩ [1, 2, 3].length).2.1 = [1, 2, 3] ∧
    (XDR.readBlock ⟨encodeBlock [1, 2, 3], false⟩ [1, 2, 3].length).2.2 = ⟨[], false⟩ := by
  have h4 : (4:Nat) ≤ wordSize := by norm_num [wordSize]
  exact xdr_roundtrip true 4 7 [1, 2, 3] h4 (by norm_num) (by norm_num [wordSize])

/-- Claim C8: a scalar read or write raises the type-too-large logic error
exactly when the requested width exceeds one word, whatever the stream
state; within the limit no error is raised, exactly one word crosses the
stream, and the returned value reports the stream health after the
transfer. -/
theorem xdr_scalar_word_limit (hostLE : Bool) (size v : Nat)
    (s : InStream) (t : OutStream)
    (hs : s.failed = false) (hsd : wordSize ≤ s.data.length)
    (ht : t.failed = false) (htc : t.capacity = none) :
    (∀ s0 : InStream, exceptOk (XDR.read hostLE size s0) = true ↔ size ≤ wordSize) ∧
    (∀ t0 : OutStream, exceptOk (XDR.write hostLE size v t0) = true ↔ size ≤ wordSize) ∧
    (∀ (s0 : InStream) (r vv : Nat) (s2 : InStream),
      XDR.read hostLE size s0 = .ok (r, vv, s2) → r = if s2.failed then 0 else 1) ∧
    (∀ (t0 : OutStream) (r : Nat) (t2 : OutStream),
      XDR.write hostLE size v t0 = .ok (r, t2) → r = if t2.failed then 0 else 1) ∧
    (size ≤ wordSize →
      ∃ vv : Nat, XDR.read hostLE size s
        = .ok (1, vv, ⟨s.data.drop wordSize, false⟩)) ∧
    (size ≤ wordSize →
      ∃ bs : List Nat, bs.length = wordSize ∧
        XDR.write hostLE size v t = .ok (1, ⟨t.written ++ bs, none, false⟩)) := by
  refine ⟨?_, ?_, ?_, ?_, ?_, ?_⟩
  · intro s0
    by_cases hgt : wordSize < size
    · have herr : exceptOk (XDR.read hostLE size s0) = false := by
        unfold XDR.read
        rw [if_pos hgt]
        rfl
      rw [herr]
      simp only [Bool.false_eq_true, false_iff]
      omega
    · have hok2 : exceptOk (XDR.read hostLE size s0) = true := by
        unfold XDR.read
        rw [if_neg hgt]
        rfl
      rw [hok2]
      simp only [true_iff]
      omega
  · intro t0
    by_cases hgt : wordSize < size
    · have herr : exceptOk (XDR.write hostLE size v t0) = false := by
        unfold XDR.write
        rw [if_pos hgt]
        rfl
      rw [herr]
      simp only [Bool.false_eq_true, false_iff]
      omega
    · have hok2 : exceptOk (XDR.write hostLE size v t0) = true := by
        unfold XDR.write
        rw [if_neg hgt]
        rfl
      rw [hok2]
      simp only [true_iff]
      omega
  · intro s0 r vv s2 heq
    unfold XDR.read at heq
    split at heq
    · exact absurd heq (by simp)
    · simp only [Except.ok.injEq, Prod.mk.injEq] at heq
      obtain ⟨hr, _, hs2⟩ := heq
      rw [← hr, hs2]
  · intro t0 r t2 heq
    unfold XDR.write at heq
    split at heq
    · exact absurd heq (by simp)
    · simp only [Except.ok.injEq, Prod.mk.injEq] at heq
      obtain ⟨hr, ht2⟩ := heq
      rw [← hr, ht2]
  · intro hle
    unfold XDR.read
    rw [if_neg (by omega)]
    have hread : inRead s wordSize = (s.data.take wordSize, ⟨s.data.drop wordSize, false⟩) := by
      unfold inRead
      rw [if_neg (by rw [hs]; simp), if_pos hsd]
    simp only [hread]
    exact ⟨_, rfl⟩
  · intro hle
    unfold XDR.write
    rw [if_neg (by omega)]
    refine ⟨_, encWord_length hostLE size v hle, ?_⟩
    have hwrite : ∀ bs : List Nat, outWrite t bs = ⟨t.written ++ bs, none, false⟩ := by
      intro bs
      unfold outWrite
      rw [if_neg (by rw [ht]; simp), htc]
    simp only [hwrite, Bool.false_eq_true, if_false]

/-- Witness for C8 at a concrete input: a 4-byte value against a healthy
4-byte input stream and an unbounded output stream. -/
theorem xdr_scalar_word_limit_witness :
    (∀ s0 : InStream, exceptOk (XDR.read true 4 s0) = true ↔ 4 ≤ wordSize) ∧
    (∀ t0 : OutStream, exceptOk (XDR.write true 4 9 t0) = true ↔ 4 ≤ wordSize) ∧
    (∀ (s0 : InStream) (r vv : Nat) (s2 : InStream),
      XDR.read true 4 s0 = .ok (r, vv, s2) → r = if s2.failed then 0 else 1) ∧
    (∀ (t0 : OutStream) (r : Nat) (t2 : OutStream),
      XDR.write true 4 9 t0 = .ok (r, t2) → r = if t2.failed then 0 else 1) ∧
    (4 ≤ wordSize →
      ∃ vv : Nat, XDR.read true 4 (⟨[1, 2, 3, 4], false⟩ : InStream)
        = .ok (1, vv, ⟨(⟨[1, 2, 3, 4], false⟩ : InStream).data.drop wordSize, false⟩)) ∧
    (4 ≤ wordSize →
      ∃ bs : List Nat, bs.length = wordSize ∧
        XDR.write true 4 9 freshOut = .ok (1, ⟨freshOut.written ++ bs, none, false⟩)) :=
  xdr_scalar_word_limit true 4 9 ⟨[1, 2, 3, 4], false⟩ freshOut rfl
    (by norm_num [wordSize]) rfl rfl

/-- Claim C9, counterexample: a zero-length block read does not return
zero; src/xdr.hpp line 65 returns 1 for a zero-length request. -/
theorem xdr_zero_block_cex : (XDR.readBlock ⟨[], false⟩ 0).1 ≠ 0 := by
  decide

/-- Claim C9 (amended): zero-length block requests succeed trivially and
transfer no bytes, but readBlock returns the constant 1 rather than the
payload length 0, and writeBlock returns its payload length 0, a value
identical to the stream-failure indicator rather than distinct from it. -/
theorem xdr_zero_block (s : InStream) (t : OutStream)
    (ht : t.failed = false) (htc : t.capacity = none) :
    XDR.readBlock s 0 = (1, [], s) ∧
    XDR.writeBlock t [] = (0, t) := by
  constructor
  · simp [XDR.readBlock]
  · obtain ⟨w, c, f⟩ := t
    simp only at ht htc
    subst ht htc
    simp [XDR.writeBlock, outWrite, wordSize]

/-- Witness for C9 at concrete inputs: a nonempty failed input stream and
the fresh output stream. -/
theorem xdr_zero_block_witness :
    XDR.readBlock ⟨[5], true⟩ 0 = (1, [], ⟨[5], true⟩) ∧
    XDR.writeBlock freshOut [] = (0, freshOut) :=
  xdr_zero_block ⟨[5], true⟩ freshOut rfl rfl

/-- Claim C10: when the payload bytes of a block read all arrive but the
stream fails while the trailing padding is being consumed, readBlock still
returns the payload length n, indistinguishable from full success, and the
stream is left failed. -/
theorem xdr_padding_failure_silent (s : InStream) (n : Nat)
    (hn : 0 < n) (hf : s.failed = false) (hlen : s.data.length = n)
    (hmod : n % wordSize ≠ 0) :
    (XDR.readBlock s n).1 = n ∧
    (XDR.readBlock s n).2.1 = s.data ∧
    (XDR.readBlock s n).2.2.failed = true := by
  have hne : n ≠ 0 := by omega
  have hmodlt : n % wordSize < wordSize :=
    Nat.mod_lt n (by norm_num [wordSize])
  have hread1 : inRead s n = (s.data, ⟨[], false⟩) := by
    unfold inRead
    rw [if_neg (by rw [hf]; simp), if_pos (le_of_eq hlen.symm)]
    rw [List.take_of_length_le (le_of_eq hlen), List.drop_eq_nil_of_le (le_of_eq hlen)]
  have hrndup : (if 0 < n % wordSize then wordSize - n % wordSize else 0)
      = wordSize - n % wordSize := by
    rw [if_pos (by omega)]
  have hread2 : inRead ⟨[], false⟩ (wordSize - n % wordSize)
      = (List.replicate (wordSize - n % wordSize) 0, ⟨[], true⟩) := by
    unfold inRead
    rw [if_neg (by simp), if_neg (by simp; omega)]
    simp
  unfold XDR.readBlock
  rw [if_neg hne]
  simp only [hrndup, hread1, Bool.false_eq_true, if_false]
  rw [if_pos (by omega), hread2]
  exact ⟨rfl, rfl, rfl⟩

/-- Witness for C10 at a concrete input: two payload bytes with no padding
bytes available. -/
theorem xdr_padding_failure_silent_witness :
    (XDR.readBlock ⟨[7, 9], false⟩ 2).1 = 2 ∧
    (XDR.readBlock ⟨[7, 9], false⟩ 2).2.1 = (⟨[7, 9], false⟩ : InStream).data ∧
    (XDR.readBlock ⟨[7, 9], false⟩ 2).2.2.failed = true :=
  xdr_padding_failure_silent ⟨[7, 9], false⟩ 2 (by norm_num) rfl rfl
    (by norm_num [wordSize])

/-- Claim C1: over three sources with native counts 10, 5, 20 and skip 2,
stride 3, the usable counts are 3, 1, 6 with total 10; seek lands at source
0 offset 2, source 1 offset 2, source 2 offset 2, source 2 offset 17 for
virtual indices 0, 3, 4, 9; a seek succeeds exactly for indices below the
total; and every valid index lands in its unique owning source at offset
skip + (index - cumulativeBase) * stride. -/
theorem multi_source_indexing (j : Nat) (hj : j < 10) :
    mtEx.counts.map (usableCount mtEx.skip mtEx.stride) = [3, 1, 6] ∧
    totalFrames mtEx.skip mtEx.stride mtEx.counts = 10 ∧
    (seekFrameImpl mtEx 0).toOption.map cursorOf = some (0, 2) ∧
    (seekFrameImpl mtEx 3).toOption.map cursorOf = some (1, 2) ∧
    (seekFrameImpl mtEx 4).toOption.map cursorOf = some (2, 2) ∧
    (seekFrameImpl mtEx 9).toOption.map cursorOf = some (2, 17) ∧
    (∀ i, exceptOk (seekFrameImpl mtEx i) = true ↔ i < 10) ∧
    (frameIndexToLocation mtEx j).1 < 3 ∧
    cumUsable mtEx.skip mtEx.stride mtEx.counts (frameIndexToLocation mtEx j).1 ≤ j ∧
    j < cumUsable mtEx.skip mtEx.stride mtEx.counts (frameIndexToLocation mtEx j).1
      + usableCount mtEx.skip mtEx.stride
          (mtEx.counts.getD (frameIndexToLocation mtEx j).1 0) ∧
    (frameIndexToLocation mtEx j).2
      = mtEx.skip + (j - cumUsable mtEx.skip mtEx.stride mtEx.counts
          (frameIndexToLocation mtEx j).1) * mtEx.stride ∧
    (∀ t', t' < 3 → cumUsable mtEx.skip mtEx.stride mtEx.counts t' ≤ j →
      j < cumUsable mtEx.skip mtEx.stride mtEx.counts t'
        + usableCount mtEx.skip mtEx.stride (mtEx.counts.getD t' 0) →
      t' = (frameIndexToLocation mtEx j).1) := by
  refine ⟨by decide, by decide, by decide, by decide, by decide, by decide, ?_, ?_⟩
  · intro i
    unfold seekFrameImpl
    have h10 : totalFrames mtEx.skip mtEx.stride mtEx.counts = 10 := by decide
    by_cases h : totalFrames mtEx.skip mtEx.stride mtEx.counts ≤ i
    · rw [if_pos h]
      simp only [exceptOk, Bool.false_eq_true, false_iff]
      omega
    · rw [if_neg h]
      simp only [exceptOk, true_iff]
      omega
  · interval_cases j <;> exact (by decide)

/-- Witness for C1 at the concrete virtual index 9: the owning source is
source 2 at native offset 17, and it is unique. -/
theorem multi_source_indexing_witness :
    (9 : Nat) < 10 ∧
    ((frameIndexToLocation mtEx 9).1 < 3 ∧
     cumUsable mtEx.skip mtEx.stride mtEx.counts (frameIndexToLocation mtEx 9).1 ≤ 9 ∧
     9 < cumUsable mtEx.skip mtEx.stride mtEx.counts (frameIndexToLocation mtEx 9).1
       + usableCount mtEx.skip mtEx.stride
           (mtEx.counts.getD (frameIndexToLocation mtEx 9).1 0) ∧
     (frameIndexToLocation mtEx 9).2
       = mtEx.skip + (9 - cumUsable mtEx.skip mtEx.stride mtEx.counts
           (frameIndexToLocation mtEx 9).1) * mtEx.stride ∧
     (∀ t', t' < 3 → cumUsable mtEx.skip mtEx.stride mtEx.counts t' ≤ 9 →
       9 < cumUsable mtEx.skip mtEx.stride mtEx.counts t'
         + usableCount mtEx.skip mtEx.stride (mtEx.counts.getD t' 0) →
       t' = (frameIndexToLocation mtEx 9).1)) :=
  ⟨by decide, (multi_source_indexing 9 (by decide)).2.2.2.2.2.2.2⟩

/-- Claim C3 (spec-modelled: DCDWriter::writeFrame lives in dcdwriter.cpp,
not among the sources): writing a frame past the declared step count leaves
the header step-count field equal to the number of frames actually written,
restores the write position to the end of the file after the in-place
header patch, and leaves the bytes of every previously written frame
unchanged. -/
theorem writer_self_extension (w : DCDWriter) (fr : FrameData) (w2 : DCDWriter)
    (hw : WriterWf w ∨ WriterFresh w)
    (heq : writeFrame w fr = .ok w2) :
    WriterWf w2 ∧
    w2.current = w.current + 1 ∧
    (w.nsteps < w2.current →
      w2.file.getD headerStepIdx 0 = w2.current ∧ w2.nsteps = w2.current) ∧
    w2.writePos = w2.file.length ∧
    (w.headerWritten = true →
      w2.file.drop (encodeHeader w.natoms w.nsteps w.hasbox w.titles).length
        = w.file.drop (encodeHeader w.natoms w.nsteps w.hasbox w.titles).length
          ++ encodeFrame w.hasbox fr) := by
  unfold writeFrame at heq
  rcases hw with hWf | hFr
  · obtain ⟨hh, hp, hl, hsv⟩ := hWf
    have hens : ensureHeader w fr = w := by
      unfold ensureHeader
      rw [hh, if_pos rfl]
    rw [hens] at heq
    have hlen3 : (encodeHeader w.natoms w.nsteps w.hasbox w.titles).length
        = 3 + w.titles.length := encodeHeader_length _ _ _ _
    by_cases hna : fr.coords.length ≠ w.natoms
    · rw [if_pos hna] at heq
      simp at heq
    rw [if_neg hna] at heq
    by_cases hbx : fr.box.isSome ≠ w.hasbox
    · rw [if_pos hbx] at heq
      simp at heq
    rw [if_neg hbx] at heq
    by_cases hov : (appendFrame w fr).nsteps < (appendFrame w fr).current
    · rw [if_pos hov] at heq
      have hw2 : patchSteps (appendFrame w fr) = w2 := by
        injection heq
      subst hw2
      have hset1 : headerStepIdx < (w.file ++ encodeFrame w.hasbox fr).length := by
        show (1:Nat) < _
        rw [List.length_append]
        omega
      refine ⟨⟨hh, ?_, ?_, ?_⟩, rfl, ?_, ?_, ?_⟩
      · show w.file.length + (encodeFrame w.hasbox fr).length
            = ((w.file ++ encodeFrame w.hasbox fr).set headerStepIdx
                (w.current + 1)).length
        rw [List.length_set, List.length_append]
      · show (encodeHeader w.natoms (w.current + 1) w.hasbox w.titles).length
            ≤ ((w.file ++ encodeFrame w.hasbox fr).set headerStepIdx
                (w.current + 1)).length
        rw [encodeHeader_length, List.length_set, List.length_append]
        omega
      · exact getD_set_self _ _ _ _ hset1
      · intro _
        exact ⟨getD_set_self _ _ _ _ hset1, rfl⟩
      · show w.file.length + (encodeFrame w.hasbox fr).length
            = ((w.file ++ encodeFrame w.hasbox fr).set headerStepIdx
                (w.current + 1)).length
        rw [List.length_set, List.length_append]
      · intro _
        show ((w.file ++ encodeFrame w.hasbox fr).set headerStepIdx
            (w.current + 1)).drop (encodeHeader w.natoms w.nsteps w.hasbox w.titles).length
          = w.file.drop (encodeHeader w.natoms w.nsteps w.hasbox w.titles).length
            ++ encodeFrame w.hasbox fr
        rw [List.drop_set, if_pos (by rw [hlen3]; show (1:Nat) < 3 + w.titles.length; omega)]
        exact List.drop_append_of_le_length hl
    · rw [if_neg hov] at heq
      have hw2 : appendFrame w fr = w2 := by
        injection heq
      subst hw2
      have hfl3 : 3 + w.titles.length ≤ w.file.length := hlen3 ▸ hl
      refine ⟨⟨hh, ?_, ?_, ?_⟩, rfl, ?_, ?_, ?_⟩
      · show w.file.length + (encodeFrame w.hasbox fr).length
            = (w.file ++ encodeFrame w.hasbox fr).length
        rw [List.length_append]
      · show (encodeHeader w.natoms w.nsteps w.hasbox w.titles).length
            ≤ (w.file ++ encodeFrame w.hasbox fr).length
        rw [List.length_append]
        omega
      · show (w.file ++ encodeFrame w.hasbox fr).getD headerStepIdx 0 = w.nsteps
        rw [List.getD_append _ _ _ _ (by show (1:Nat) < _; omega)]
        exact hsv
      · intro hcon
        exact absurd hcon hov
      · show w.file.length + (encodeFrame w.hasbox fr).length
            = (w.file ++ encodeFrame w.hasbox fr).length
        rw [List.length_append]
      · intro _
        exact List.drop_append_of_le_length hl
  · obtain ⟨na, ns, hb, ti, cu, hwr, fi, wp⟩ := w
    obtain ⟨hh0, hf0, hp0, hc0, hn0⟩ := hFr
    have hwr0 : hwr = false := hh0
    have hfi0 : fi = [] := hf0
    have hwp0 : wp = 0 := hp0
    have hcu0 : cu = 0 := hc0
    have hns0 : ns = 0 := hn0
    subst hwr0 hfi0 hwp0 hcu0 hns0
    have hens : ensureHeader ⟨na, 0, hb, ti, 0, false, [], 0⟩ fr
        = writeHeader ⟨fr.coords.length, 0, fr.box.isSome, ti, 0, false, [], 0⟩ := by
      unfold ensureHeader
      rw [if_neg (by simp)]
    rw [hens] at heq
    rw [if_neg (show ¬ fr.coords.length
        ≠ (writeHeader ⟨fr.coords.length, 0, fr.box.isSome, ti, 0, false, [], 0⟩).natoms
      from fun hcon => hcon rfl)] at heq
    rw [if_neg (show ¬ fr.box.isSome
        ≠ (writeHeader ⟨fr.coords.length, 0, fr.box.isSome, ti, 0, false, [], 0⟩).hasbox
      from fun hcon => hcon rfl)] at heq
    rw [if_pos (show (appendFrame
        (writeHeader ⟨fr.coords.length, 0, fr.box.isSome, ti, 0, false, [], 0⟩) fr).nsteps
      < (appendFrame
        (writeHeader ⟨fr.coords.length, 0, fr.box.isSome, ti, 0, false, [], 0⟩) fr).current
      from Nat.zero_lt_one)] at heq
    have hw2 : patchSteps (appendFrame
        (writeHeader ⟨fr.coords.length, 0, fr.box.isSome, ti, 0, false, [], 0⟩) fr) = w2 := by
      injection heq
    subst hw2
    have hset1 : headerStepIdx
        < (encodeHeader fr.coords.length 0 fr.box.isSome ti
            ++ encodeFrame fr.box.isSome fr).length := by
      show (1:Nat) < _
      rw [List.length_append, encodeHeader_length]
      omega
    refine ⟨⟨rfl, ?_, ?_, ?_⟩, rfl, ?_, ?_, ?_⟩
    · show (encodeHeader fr.coords.length 0 fr.box.isSome ti).length
          + (encodeFrame fr.box.isSome fr).length
        = ((encodeHeader fr.coords.length 0 fr.box.isSome ti
            ++ encodeFrame fr.box.isSome fr).set headerStepIdx 1).length
      rw [List.length_set, List.length_append]
    · show (encodeHeader fr.coords.length 1 fr.box.isSome ti).length
        ≤ ((encodeHeader fr.coords.length 0 fr.box.isSome ti
            ++ encodeFrame fr.box.isSome fr).set headerStepIdx 1).length
      rw [encodeHeader_length, List.length_set, List.length_append, encodeHeader_length]
      omega
    · exact getD_set_self _ _ _ _ hset1
    · intro _
      exact ⟨getD_set_self _ _ _ _ hset1, rfl⟩
    · show (encodeHeader fr.coords.length 0 fr.box.isSome ti).length
          + (encodeFrame fr.box.isSome fr).length
        = ((encodeHeader fr.coords.length 0 fr.box.isSome ti
            ++ encodeFrame fr.box.isSome fr).set headerStepIdx 1).length
      rw [List.length_set, List.length_append]
    · intro hcon
      simp at hcon

/-- Witness for C3: the example writer declared zero steps, so its first
frame write triggers the header patch. -/
theorem writer_self_extension_witness :
    WriterWf ⟨1, 1, false, [7], 1, true, [1, 1, 0, 7, 5, 6, 8], 7⟩ ∧
    (⟨1, 1, false, [7], 1, true, [1, 1, 0, 7, 5, 6, 8], 7⟩ : DCDWriter).current
      = wEx.current + 1 ∧
    (wEx.nsteps < (⟨1, 1, false, [7], 1, true, [1, 1, 0, 7, 5, 6, 8], 7⟩ : DCDWriter).current →
      (⟨1, 1, false, [7], 1, true, [1, 1, 0, 7, 5, 6, 8], 7⟩ : DCDWriter).file.getD
          headerStepIdx 0
        = (⟨1, 1, false, [7], 1, true, [1, 1, 0, 7, 5, 6, 8], 7⟩ : DCDWriter).current ∧
      (⟨1, 1, false, [7], 1, true, [1, 1, 0, 7, 5, 6, 8], 7⟩ : DCDWriter).nsteps
        = (⟨1, 1, false, [7], 1, true, [1, 1, 0, 7, 5, 6, 8], 7⟩ : DCDWriter).current) ∧
    (⟨1, 1, false, [7], 1, true, [1, 1, 0, 7, 5, 6, 8], 7⟩ : DCDWriter).writePos
      = (⟨1, 1, false, [7], 1, true, [1, 1, 0, 7, 5, 6, 8], 7⟩ : DCDWriter).file.length ∧
    (wEx.headerWritten = true →
      (⟨1, 1, false, [7], 1, true, [1, 1, 0, 7, 5, 6, 8], 7⟩ : DCDWriter).file.drop
          (encodeHeader wEx.natoms wEx.nsteps wEx.hasbox wEx.titles).length
        = wEx.file.drop (encodeHeader wEx.natoms wEx.nsteps wEx.hasbox wEx.titles).length
          ++ encodeFrame wEx.hasbox frEx) :=
  writer_self_extension wEx frEx ⟨1, 1, false, [7], 1, true, [1, 1, 0, 7, 5, 6, 8], 7⟩
    (Or.inl (by unfold WriterWf; decide)) (by rfl)

/-- Claim C4: immediately after a rewind that does not land at end, the
cursor sits on the first usable source at native offset skip, that frame
has already been loaded into the source cache, and copying coordinates out
yields that frame's data with no further advance or materialize call. -/
theorem rewind_primes_readable (st : MultiTrajectory) (g : Option (Nat × Option Nat))
    (hwf : st.caches.length = st.counts.length)
    (hne : eofState (rewindImpl st) = false) :
    (rewindImpl st).curframe = st.skip ∧
    (rewindImpl st).curtraj < st.counts.length ∧
    st.skip < st.counts.getD (rewindImpl st).curtraj 0 ∧
    (∀ j, j < (rewindImpl st).curtraj → st.counts.getD j 0 ≤ st.skip) ∧
    (rewindImpl st).caches.getD (rewindImpl st).curtraj none = some st.skip ∧
    updateGroupCoordsImpl (rewindImpl st) g
      = some ((rewindImpl st).curtraj, some st.skip) := by
  have hne' := hne
  obtain ⟨rc, rs, rst, rt, rf⟩ := rewind_basic st
  have hF0 : findNextUsable st.counts st.skip 0 < st.counts.length := by
    rw [eofState_false_iff, rt, rc] at hne
    exact hne
  have hcache := rewind_caches st hwf hne'
  refine ⟨rf, ?_, ?_, ?_, hcache, ?_⟩
  · rw [rt]
    exact hF0
  · rw [rt]
    exact findNextUsable_usable st.counts st.skip 0 hF0
  · intro j hj
    rw [rt] at hj
    exact findNextUsable_before st.counts st.skip 0 j (Nat.zero_le j) hj
  · unfold updateGroupCoordsImpl
    rw [hne']
    simp only [Bool.false_eq_true, if_false]
    rw [hcache]

/-- Witness for C4 on the three-source example: after rewind the cursor is
on source 0 at offset 2 and the copy yields that frame. -/
theorem rewind_primes_readable_witness :
    (rewindImpl mtEx).curframe = mtEx.skip ∧
    (rewindImpl mtEx).curtraj < mtEx.counts.length ∧
    mtEx.skip < mtEx.counts.getD (rewindImpl mtEx).curtraj 0 ∧
    (∀ j, j < (rewindImpl mtEx).curtraj → mtEx.counts.getD j 0 ≤ mtEx.skip) ∧
    (rewindImpl mtEx).caches.getD (rewindImpl mtEx).curtraj none = some mtEx.skip ∧
    updateGroupCoordsImpl (rewindImpl mtEx) none
      = some ((rewindImpl mtEx).curtraj, some mtEx.skip) :=
  rewind_primes_readable mtEx none (by decide) (by decide)

/-- Claim C5: for every virtual index k below the total, a rewind followed
by k sequential advances leaves the cursor exactly where seek(k) puts it:
sequential iteration and random access agree on the frame order. -/
theorem seq_advance_matches_seek (st : MultiTrajectory) (k : Nat)
    (hstride : 0 < st.stride)
    (hk : k < totalFrames st.skip st.stride st.counts) :
    (seekFrameImpl st k).toOption.map cursorOf
      = some (cursorOf (seekNextFrameImpl^[k] (rewindImpl st))) := by
  have hchain := advance_chain st hstride k hk
  unfold seekFrameImpl
  rw [if_neg (by omega), hchain]
  show some ((frameIndexToLocation st k).1, (frameIndexToLocation st k).2)
      = some (frameLocAux st.skip st.stride st.counts k)
  rw [Prod.mk.eta]
  rfl

/-- Witness for C5 on the three-source example at k = 4: both paths land on
source 2 at native offset 2. -/
theorem seq_advance_matches_seek_witness :
    (seekFrameImpl mtEx 4).toOption.map cursorOf
      = some (cursorOf (seekNextFrameImpl^[4] (rewindImpl mtEx))) :=
  seq_advance_matches_seek mtEx 4 (by decide) (by decide)

/-- Claim C6: a source whose native count is at most skip contributes zero
usable frames, and after a rewind followed by any number of sequential
advances the cursor never rests on such a source. -/
theorem skip_exhausted_sources (st : MultiTrajectory) (k : Nat) :
    (∀ n, n ≤ st.skip → usableCount st.skip st.stride n = 0) ∧
    ((seekNextFrameImpl^[k] (rewindImpl st)).curtraj < st.counts.length →
      st.skip < st.counts.getD (seekNextFrameImpl^[k] (rewindImpl st)).curtraj 0) := by
  constructor
  · intro n hn
    exact (usableCount_eq_zero_iff st.skip st.stride n).mpr hn
  · exact cursor_usable_invariant st k

/-- Witness for C6 on a stream whose sources 0 and 2 are skip-exhausted:
after three advances from rewind the cursor sits on the usable source 1. -/
theorem skip_exhausted_sources_witness :
    usableCount mtW.skip mtW.stride 1 = 0 ∧
    mtW.skip < mtW.counts.getD (seekNextFrameImpl^[3] (rewindImpl mtW)).curtraj 0 :=
  ⟨(skip_exhausted_sources mtW 3).1 1 (by decide),
   (skip_exhausted_sources mtW 3).2 (by decide)⟩

/-- Claim C7: at end of stream, advance is a no-op on the whole state, the
coordinate copy leaves the target buffer untouched, and materializing
reports nothing read without side effects. -/
theorem end_of_stream_noop (st : MultiTrajectory) (g : Option (Nat × Option Nat))
    (h : eofState st = true) :
    seekNextFrameImpl st = st ∧
    updateGroupCoordsImpl st g = g ∧
    parseFrame st = (false, st) := by
  refine ⟨seekNext_eof st h, ?_, ?_⟩
  · unfold updateGroupCoordsImpl
    rw [if_pos h]
  · unfold parseFrame
    rw [if_pos h]

/-- Witness for C7 on a concrete end-of-stream state. -/
theorem end_of_stream_noop_witness :
    seekNextFrameImpl mtEnd = mtEnd ∧
    updateGroupCoordsImpl mtEnd (some (9, some 9)) = some (9, some 9) ∧
    parseFrame mtEnd = (false, mtEnd) :=
  end_of_stream_noop mtEnd (some (9, some 9)) (by decide)

end Loos
